import Mathlib

/-!
Verification development for the distributed branch-and-bound graph-coloring
solver (sources: src/src/common.hpp and
src/src/branch_n_bound_par.cpp).  The C++ data model and the individual
state-updating steps of the four per-process threads are shallowly embedded
as executable Lean functions; machine integers are modelled by Nat/Int with
explicit range hypotheses where overflow matters.
-/

namespace GraphColorNumber

/--
The Branch record of src/src/common.hpp: a search-tree node carrying the
graph-modification history together with the two bounds and the depth.
The history is modelled by the byte string its (external, out-of-repo)
serializer produces: graph.hpp is not under src/, and the spec treats
GraphHistory.Serialize/Deserialize as an opaque round-tripping pair, so a
history is represented directly by its list of bytes.
`lb` is a C++ `int` (4 bytes, signed), `ub` an `unsigned short` (2 bytes),
`depth` an `int` (4 bytes).
-/
structure Branch where
  history : List Nat := []
  lb : Int := 0
  ub : Nat := 0
  depth : Int := 0
deriving DecidableEq, Repr

/-- Little-endian base-256 byte decomposition of a natural number into
exactly `k` bytes, mirroring what `std::memcpy` of a `k`-byte unsigned
value produces on the little-endian target. -/
def bytesLE (n : Nat) : Nat → List Nat
  | 0 => []
  | k + 1 => n % 256 :: bytesLE (n / 256) k

/-- Reassemble a little-endian byte list into the natural number it encodes. -/
def wordOfBytes : List Nat → Nat
  | [] => 0
  | b :: rest => b + 256 * wordOfBytes rest

/-- The four bytes `memcpy` writes for a C++ 32-bit signed `int`:
the two's-complement residue `x mod 2^32`, little-endian. -/
def int32ToBytes (x : Int) : List Nat :=
  bytesLE (x % 4294967296).toNat 4

/-- Reading four little-endian bytes back as a 32-bit signed `int`. -/
def int32OfBytes (bs : List Nat) : Int :=
  let n := wordOfBytes bs
  if n < 2147483648 then (n : Int) else (n : Int) - 4294967296

/-- `Branch::serialize` (src/src/common.hpp, lines 90-108): `lb` as 4 bytes,
then `ub` as 2 bytes, then `depth` as 4 bytes, then the history bytes. -/
def Branch.serialize (b : Branch) : List Nat :=
  int32ToBytes b.lb ++ bytesLE b.ub 2 ++ int32ToBytes b.depth ++ b.history

/-- `Branch::deserialize` (src/src/common.hpp, lines 111-127): reads `lb`
from bytes 0-3, `ub` from bytes 4-5, `depth` from bytes 6-9 and the history
from byte 10 onwards. -/
def Branch.deserialize (buffer : List Nat) : Branch :=
  { lb := int32OfBytes (buffer.take 4)
    ub := wordOfBytes ((buffer.drop 4).take 2)
    depth := int32OfBytes ((buffer.drop 6).take 4)
    history := buffer.drop 10 }

/--
The C++ move constructor `Branch(Branch&& b)` (src/src/common.hpp, lines
58-60).  Its member initializer `history(b.history)` names the lvalue
`b.history`, so overload resolution picks the history's COPY constructor
(no `std::move` appears); the scalar members are copied as well.  The
result is the pair (constructed destination, source after construction).
-/
def Branch.moveConstruct (src : Branch) : Branch × Branch :=
  ({ history := src.history, lb := src.lb, ub := src.ub, depth := src.depth }, src)

/-- The copy constructor `Branch(const Branch& b)` (lines 54-56), for
comparison with the move constructor. -/
def Branch.copyConstruct (src : Branch) : Branch × Branch :=
  ({ history := src.history, lb := src.lb, ub := src.ub, depth := src.depth }, src)

/-- The move assignment `operator=(Branch&& other)` (lines 73-82): again
`other.history` is an lvalue, so every member is copy-assigned; the
self-assignment guard does not change the outcome.  Result: (assigned
destination, source after assignment). -/
def Branch.moveAssign (dst src : Branch) : Branch × Branch :=
  (if dst = src then (dst, src) else
    ({ history := src.history, lb := src.lb, ub := src.ub, depth := src.depth }, src))

/-- The copy assignment `operator=(const Branch& other)` (lines 62-71). -/
def Branch.copyAssign (dst src : Branch) : Branch × Branch :=
  (if dst = src then (dst, src) else
    ({ history := src.history, lb := src.lb, ub := src.ub, depth := src.depth }, src))

/-!  ## The per-process priority queue

`BranchQueue` is a `std::priority_queue<Branch>` ordered by
`Branch::operator<`, which compares `depth` (src/src/common.hpp, lines
85-87): the top element is one of maximal depth.  The heap is modelled by
its multiset of elements kept as a list; `top` picks a maximal-depth
element and `pop` removes that occurrence.  -/

/-- Scan for the element the heap's `top()` returns: a branch of maximal
`depth` among `b :: l`. -/
def topAux (b : Branch) : List Branch → Branch
  | [] => b
  | c :: rest => topAux (if b.depth < c.depth then c else b) rest

/-- Remove the first occurrence of `t` from a list (the effect of `pop()`
on the heap's element multiset). -/
def removeOne (t : Branch) : List Branch → List Branch
  | [] => []
  | b :: rest => if b = t then rest else b :: removeOne t rest

/-- The local priority queue of a process, by its element list. -/
structure BQueue where
  elems : List Branch
deriving DecidableEq, Repr

/-- `queue.size()`. -/
def BQueue.size (q : BQueue) : Nat := q.elems.length

/-- `queue.top()`: a maximal-depth element (none on an empty queue). -/
def BQueue.topOpt (q : BQueue) : Option Branch :=
  match q.elems with
  | [] => none
  | b :: rest => some (topAux b rest)

/-- `queue.pop()`: drop the top occurrence. -/
def BQueue.pop (q : BQueue) : BQueue :=
  match q.elems with
  | [] => q
  | b :: rest => ⟨removeOne (topAux b rest) (b :: rest)⟩

/-- Messages the embedded thread steps emit, tagged as in the source
(TAG_WORK_RESPONSE, TAG_WORK_STEALING, TAG_SOLUTION_FOUND, TAG_IDLE). -/
inductive Msg where
  | workResponse (dest avail : Nat)
  | workStealing (dest : Nat) (b : Branch)
  | solutionUb (dest ub : Nat)
  | solutionBranch (dest : Nat) (b : Branch)
  | idleMsg (dest : Nat) (v : Int)
deriving DecidableEq, Repr

/--
One reaction of the employer thread to a probed TAG_WORK_REQUEST from
`requester` (`BranchNBoundPar::thread_2_employer`,
src/src/branch_n_bound_par.cpp lines 355-374; the balanced variant, lines
954-973, is textually identical).  Under the queue lock: if
`queue.size() > 1`, pop the top branch and send `available=1` on
TAG_WORK_RESPONSE followed by the branch on TAG_WORK_STEALING; otherwise
send `available=0` and leave the queue untouched.  Result: (queue after,
messages sent in order).
-/
def thread_2_employer_step (q : BQueue) (requester : Nat) : BQueue × List Msg :=
  match q.elems with
  | b :: c :: rest =>
      let t := topAux b (c :: rest)
      (⟨removeOne t (b :: c :: rest)⟩,
       [Msg.workResponse requester 1, Msg.workStealing requester t])
  | _ => (q, [Msg.workResponse requester 0])

/-!  ## BestUB store sites

`_best_ub` is an `std::atomic<unsigned short>`; each store site of the
source is embedded as a function from the replaced value (and the site's
inputs) to the stored value.  -/

/-- T3's guarded improvement store (the `lb == ub` prune path, lines
561-566, and the complete-graph path, lines 597-602): store `cand` only
when `cand < best_ub`. -/
def t3_improve_store (bestUb cand : Nat) : Nat :=
  if cand < bestUb then cand else bestUb

/-- T3's two-children update (lines 650-662 / balanced 1176-1187): prefer
the MERGE child's ub when it improves and is no worse than the ADDEDGE
child's, else the ADDEDGE child's when it improves. -/
def t3_two_children_store (bestUb ub1 ub2 : Nat) : Nat :=
  if ub1 < bestUb ∧ ub1 ≤ ub2 then ub1
  else if ub2 < bestUb then ub2
  else bestUb

/-- `std::min_element` over the gathered vector (nonempty in the source:
one slot per rank). -/
def minElement : List Nat → Nat
  | [] => 0
  | x :: xs => xs.foldl Nat.min x

/-- T1's install after the all-gather completes
(`thread_1_solution_gatherer`, line 335 / balanced line 934): store the
minimum of the gathered values; the vector contains this process's own
contribution read at gather start. -/
def thread_1_gather_install (all_best_ub : List Nat) : Nat :=
  minElement all_best_ub

/-- T0's install on receiving a declared solution (lines 201-202): the
declared ub is stored unconditionally. -/
def thread_0_solution_install (bestUb declared : Nat) : Nat :=
  declared

/-!  ## The coordinator's timeout collection (thread_0_terminator)

On `timeout_signal`, rank 0 receives one Branch from each rank
`i ∈ 1..p-1` over TAG_TIMEOUT_SOLUTION and keeps the incumbent
(lines 264-277; balanced 848-860).  The local `found` flag of the source
is never assigned `true`, which the embedding reproduces faithfully.  -/

/-- The accumulator of the collection loop: the `found` flag, the current
`best_branch` (`none` while it still holds the default-constructed
Branch), and the running `_best_ub`. -/
structure TimeoutAcc where
  found : Bool
  best : Option Branch
  bestUb : Nat
deriving DecidableEq, Repr

/-- `best_branch.ub` as read by the loop condition; the `none` case stands
for the default-constructed branch and is never consulted because `found`
stays `false` (the disjunction short-circuits). -/
def bestUbOf : Option Branch → Nat
  | some b => b.ub
  | none => 0

/-- One iteration of the collection loop, on the branch received from the
next worker: `if ((!found || b.ub < best_branch.ub) && b.ub <= _best_ub)
{ _best_ub.store(b.ub); best_branch = b; }`. -/
def timeoutCollectStep (acc : TimeoutAcc) (b : Branch) : TimeoutAcc :=
  if (!acc.found || decide (b.ub < bestUbOf acc.best)) && decide (b.ub ≤ acc.bestUb) then
    { acc with best := some b, bestUb := b.ub }
  else acc

/-- The whole collection loop over the received branches, started from the
default-constructed `best_branch` and the current `_best_ub`. -/
def timeoutCollect (bestUb : Nat) (bs : List Branch) : TimeoutAcc :=
  bs.foldl timeoutCollectStep { found := false, best := none, bestUb := bestUb }

/-- The coordinator's timeout phase: one receive per worker rank
`1..p-1`, folded through the collection loop. -/
def coordinatorTimeoutPhase (p : Nat) (bestUb : Nat) (recvd : Nat → Branch) : TimeoutAcc :=
  timeoutCollect bestUb ((List.range (p - 1)).map (fun i => recvd (i + 1)))

/-- `ColorInitialGraph(graph_to_color, best_branch)` is called
unconditionally after the loop; when no branch was accepted,
`best_branch` is still the default-constructed Branch (whose graph
pointer is null in the C++). -/
def branchOrDefault : Option Branch → Branch
  | some b => b
  | none => {}

/-!  ## The coordinator iteration (rank 0 body of thread_0_terminator)

One pass of the `while (true)` loop of
`BranchNBoundPar::thread_0_terminator` (lines 181-288) at rank 0, over the
inputs visible in that pass: whether the wall-clock timeout has been
reached, an optional incoming TAG_SOLUTION_FOUND message (declared ub and
the accompanying Branch), the drained TAG_IDLE messages in arrival order,
and the branches the workers answer with on TAG_TIMEOUT_SOLUTION.  The
output-graph coloring is modelled by the Branch it was last reconstructed
from.  -/

/-- The `std::all_of` check of line 252: every entry of `idle_status`,
index 0 included, equals 1. -/
def checkAllIdle (idle : List Int) : Bool :=
  idle.all (fun s => s == 1)

/-- The spec's wording of the all-idle condition, for comparison: every
WORKER rank `1..P-1` reports `idle_status = 1` (entry 0 not consulted). -/
def workersAllIdle (idle : List Int) : Bool :=
  (idle.drop 1).all (fun s => s == 1)

/-- `idle_status[source] = value` (line 248). -/
def updateIdleTable (tbl : List Int) (src : Nat) (v : Int) : List Int :=
  tbl.set src v

/-- The idle notification the worker thread T3 sends when its queue is
empty (lines 512-513): destination rank 0, value 1 — sent by the worker
of EVERY rank, rank 0's own worker included. -/
def t3_idleNotify : Nat × Int := (0, 1)

/-- The coordinator's mutable state across iterations. -/
structure CoordState where
  bestUb : Nat
  witness : Option Branch
  idleTable : List Int
  solutionFound : Bool
  timeoutSignal : Bool
deriving DecidableEq, Repr

/-- One rank-0 iteration of `thread_0_terminator`.  Returns the new state
and whether the pass ends with `terminate_flag` set (solution or
timeout).  Receiving a solution stores the declared ub and then the
received branch's ub into `_best_ub` (net effect: the branch's ub),
reconstructs the output coloring from that branch and sets
`solution_found`; the timeout phase, run AFTER the broadcasts whenever
`timeout_signal` is up, collects the workers' branches and reconstructs
the output coloring again from the collection's incumbent. -/
def coordinatorIteration (p : Nat) (st : CoordState) (timeoutReached : Bool)
    (incoming : Option (Nat × Branch)) (idleMsgs : List (Nat × Int))
    (recvd : Nat → Branch) : CoordState × Bool :=
  let ts := st.timeoutSignal || timeoutReached
  let afterSol :=
    match incoming with
    | some du => (du.2.ub, some du.2, true)
    | none => (st.bestUb, st.witness, st.solutionFound)
  let tbl := idleMsgs.foldl (fun t m => updateIdleTable t m.1 m.2) st.idleTable
  let sf := afterSol.2.2 || checkAllIdle tbl
  let afterTimeout :=
    if ts then
      let acc := coordinatorTimeoutPhase p afterSol.1 recvd
      (acc.bestUb, some (branchOrDefault acc.best))
    else (afterSol.1, afterSol.2.1)
  ({ bestUb := afterTimeout.1, witness := afterTimeout.2, idleTable := tbl,
     solutionFound := sf, timeoutSignal := ts }, sf || ts)

/-!  ## The worker's loop steps (T3) -/

/-- What the worker does next with the search loop after a step. -/
inductive LoopAction where
  | exitLoop
  | continueLoop
  | proceed
deriving DecidableEq, Repr

/-- The solution short-circuit of the STANDARD variant
(`BranchNBoundPar::Solve`, lines 534-546): when the popped branch's ub
equals `expected_chi`, store it into `_best_ub`, send the ub and then the
serialized branch to rank 0 under TAG_SOLUTION_FOUND, and `break` out of
the search loop.  Result: (stored best_ub, messages, loop action). -/
def solveShortCircuitStandard (bestUb current_ub expected : Nat) (cur : Branch) :
    Nat × List Msg × LoopAction :=
  if current_ub = expected then
    (current_ub, [Msg.solutionUb 0 current_ub, Msg.solutionBranch 0 cur],
     LoopAction.exitLoop)
  else (bestUb, [], LoopAction.proceed)

/-- The solution short-circuit of the BALANCED variant
(`BalancedBranchNBoundPar::Solve`, lines 1094-1106): identical stores and
sends, but the branch ends in `continue`, not `break`. -/
def solveShortCircuitBalanced (bestUb current_ub expected : Nat) (cur : Branch) :
    Nat × List Msg × LoopAction :=
  if current_ub = expected then
    (current_ub, [Msg.solutionUb 0 current_ub, Msg.solutionBranch 0 cur],
     LoopAction.continueLoop)
  else (bestUb, [], LoopAction.proceed)

/-- The complete-graph case of the worker loop (`ChooseVertices` returned
(-1,-1); lines 597-604, balanced 1142-1150): with `n = GetNumVertices()`,
if `n < _best_ub` store `n` and rebuild `_current_best` via
`UpdateCurrentBest(current.depth, current.lb, current.ub, clone)` — note
the recorded bounds are the POPPED branch's `lb` and `ub`; then `continue`
without pushing children.  Result: (best_ub, current_best, pushed
children). -/
def completeGraphCase (bestUb n : Nat) (cur curBest : Branch) :
    Nat × Branch × List Branch :=
  if n < bestUb then
    (n, { history := cur.history, lb := cur.lb, ub := cur.ub, depth := cur.depth }, [])
  else (bestUb, curBest, [])

/-!  ## The steal client's victim selection (request_work)

`request_work` (lines 397-433) starts with
`int target_worker = my_rank; while (target_worker == my_rank)
target_worker = (rand() % p);` — a loop with no termination-flag check
that retries until a draw lands on a rank different from the caller.  It
is embedded over an explicit list of random draws: `none` means every
draw was rejected (the C++ loop is still spinning after that many
draws). -/
def selectVictim (my_rank p : Nat) : List Nat → Option Nat
  | [] => none
  | r :: rest =>
      if r % p = my_rank then selectVictim my_rank p rest
      else some (r % p)

/-!  ## Helper lemmas: byte encodings -/

lemma bytesLE_length (k : Nat) : ∀ n, (bytesLE n k).length = k := by
  induction k with
  | zero => intro n; rfl
  | succ k ih => intro n; simp [bytesLE, ih]

lemma wordOfBytes_bytesLE (k : Nat) : ∀ n, n < 256 ^ k → wordOfBytes (bytesLE n k) = n := by
  induction k with
  | zero =>
      intro n h
      simp only [pow_zero, Nat.lt_one_iff] at h
      subst h; rfl
  | succ k ih =>
      intro n h
      have hdiv : n / 256 < 256 ^ k := by
        rw [Nat.div_lt_iff_lt_mul (by norm_num : 0 < 256)]
        calc n < 256 ^ (k + 1) := h
        _ = 256 ^ k * 256 := by ring
      simp only [bytesLE, wordOfBytes, ih (n / 256) hdiv]
      omega

lemma int32ToBytes_length (x : Int) : (int32ToBytes x).length = 4 :=
  bytesLE_length 4 _

lemma int32_roundtrip (x : Int) (h1 : -2147483648 ≤ x) (h2 : x < 2147483648) :
    int32OfBytes (int32ToBytes x) = x := by
  have hm0 : (0 : Int) ≤ x % 4294967296 := Int.emod_nonneg x (by norm_num)
  have hm1 : x % 4294967296 < 4294967296 := Int.emod_lt_of_pos x (by norm_num)
  have htn : (x % 4294967296).toNat < 256 ^ 4 := by
    have : (256 : Nat) ^ 4 = 4294967296 := by norm_num
    omega
  have hw : wordOfBytes (bytesLE (x % 4294967296).toNat 4) = (x % 4294967296).toNat :=
    wordOfBytes_bytesLE 4 _ htn
  simp only [int32OfBytes, int32ToBytes, hw]
  have hmx : x % 4294967296 = x ∨ x % 4294967296 = x + 4294967296 := by
    rcases le_or_lt 0 x with hx | hx
    · left; exact Int.emod_eq_of_lt hx (by omega)
    · right
      have : (x + 4294967296) % 4294967296 = x + 4294967296 :=
        Int.emod_eq_of_lt (by omega) (by omega)
      omega
  rcases hmx with hmx | hmx <;> (rw [hmx]; split <;> omega)

lemma take_append_of_len {A B : List Nat} {k : Nat} (h : A.length = k) :
    (A ++ B).take k = A := by
  subst h
  induction A with
  | nil => rfl
  | cons a rest ih => simp [List.take, ih]

lemma drop_append_of_len {A B : List Nat} {k : Nat} (h : A.length = k) :
    (A ++ B).drop k = B := by
  subst h
  induction A with
  | nil => rfl
  | cons a rest ih => simp [List.drop, ih]

/-!  ## Helper lemmas: the timeout collection fold -/

lemma timeoutCollectStep_found (acc : TimeoutAcc) (b : Branch) :
    (timeoutCollectStep acc b).found = acc.found := by
  unfold timeoutCollectStep; split <;> rfl

lemma timeoutCollect_found_aux :
    ∀ (bs : List Branch) (acc : TimeoutAcc),
      (bs.foldl timeoutCollectStep acc).found = acc.found := by
  intro bs
  induction bs with
  | nil => intro acc; rfl
  | cons b rest ih =>
      intro acc
      simp only [List.foldl_cons, ih, timeoutCollectStep_found]

lemma timeoutCollectStep_bestUb_le (acc : TimeoutAcc) (b : Branch) :
    (timeoutCollectStep acc b).bestUb ≤ acc.bestUb := by
  unfold timeoutCollectStep
  split
  · next h =>
      have := (Bool.and_eq_true _ _).mp h
      have hb : b.ub ≤ acc.bestUb := of_decide_eq_true this.2
      simpa using hb
  · exact le_refl _

lemma timeoutCollect_bestUb_mono :
    ∀ (bs : List Branch) (acc : TimeoutAcc),
      (bs.foldl timeoutCollectStep acc).bestUb ≤ acc.bestUb := by
  intro bs
  induction bs with
  | nil => intro acc; exact le_refl _
  | cons b rest ih =>
      intro acc
      exact le_trans (ih (timeoutCollectStep acc b)) (timeoutCollectStep_bestUb_le acc b)

lemma timeoutCollectStep_accepts (acc : TimeoutAcc) (b : Branch)
    (hf : acc.found = false) (hle : b.ub ≤ acc.bestUb) :
    timeoutCollectStep acc b = { acc with best := some b, bestUb := b.ub } := by
  unfold timeoutCollectStep
  rw [hf]
  simp [hle]

lemma timeoutCollectStep_rejects (acc : TimeoutAcc) (b : Branch)
    (hf : acc.found = false) (hgt : ¬ b.ub ≤ acc.bestUb) :
    timeoutCollectStep acc b = acc := by
  unfold timeoutCollectStep
  rw [hf]
  simp [hgt]

lemma timeoutCollect_min_aux :
    ∀ (bs : List Branch) (acc : TimeoutAcc), acc.found = false →
      ∀ b ∈ bs, b.ub ≤ acc.bestUb →
        (bs.foldl timeoutCollectStep acc).bestUb ≤ b.ub := by
  intro bs
  induction bs with
  | nil => intro acc _ b hb; cases hb
  | cons c rest ih =>
      intro acc hf b hb hble
      rcases List.mem_cons.mp hb with rfl | hb
      · rw [List.foldl_cons, timeoutCollectStep_accepts acc _ hf hble]
        exact timeoutCollect_bestUb_mono rest _
      · rw [List.foldl_cons]
        have hf1 : (timeoutCollectStep acc c).found = false := by
          rw [timeoutCollectStep_found]; exact hf
        rcases le_or_lt b.ub (timeoutCollectStep acc c).bestUb with hle1 | hlt1
        · exact ih (timeoutCollectStep acc c) hf1 b hb hle1
        · exact le_trans (timeoutCollect_bestUb_mono rest _) (le_of_lt hlt1)

lemma timeoutCollectStep_inv (acc : TimeoutAcc) (c : Branch)
    (hinv : ∀ b', acc.best = some b' → b'.ub = acc.bestUb) :
    ∀ b', (timeoutCollectStep acc c).best = some b' →
      b'.ub = (timeoutCollectStep acc c).bestUb := by
  intro b' hb'
  unfold timeoutCollectStep at hb' ⊢
  split at hb'
  · next h =>
      rw [if_pos h]
      have : c = b' := by simpa using hb'
      subst this
      rfl
  · next h =>
      rw [if_neg h]
      exact hinv b' hb'

lemma timeoutCollect_best_ub_eq :
    ∀ (bs : List Branch) (acc : TimeoutAcc),
      (∀ b', acc.best = some b' → b'.ub = acc.bestUb) →
      ∀ b', (bs.foldl timeoutCollectStep acc).best = some b' →
        b'.ub = (bs.foldl timeoutCollectStep acc).bestUb := by
  intro bs
  induction bs with
  | nil => intro acc hinv; exact hinv
  | cons c rest ih =>
      intro acc hinv
      simp only [List.foldl_cons]
      exact ih (timeoutCollectStep acc c) (timeoutCollectStep_inv acc c hinv)

lemma timeoutCollect_best_mem :
    ∀ (bs : List Branch) (acc : TimeoutAcc) (b' : Branch),
      (bs.foldl timeoutCollectStep acc).best = some b' →
      b' ∈ bs ∨ acc.best = some b' := by
  intro bs
  induction bs with
  | nil => intro acc b' h; exact Or.inr h
  | cons c rest ih =>
      intro acc b' h
      rw [List.foldl_cons] at h
      rcases ih (timeoutCollectStep acc c) b' h with hmem | hacc
      · exact Or.inl (List.mem_cons_of_mem _ hmem)
      · unfold timeoutCollectStep at hacc
        split at hacc
        · have : c = b' := by simpa using hacc
          exact Or.inl (by rw [← this]; exact List.mem_cons_self c rest)
        · exact Or.inr hacc

lemma timeoutCollect_best_isSome_preserved :
    ∀ (bs : List Branch) (acc : TimeoutAcc), acc.best.isSome →
      (bs.foldl timeoutCollectStep acc).best.isSome := by
  intro bs
  induction bs with
  | nil => intro acc h; exact h
  | cons c rest ih =>
      intro acc h
      rw [List.foldl_cons]
      apply ih
      unfold timeoutCollectStep
      split
      · rfl
      · exact h

lemma timeoutCollect_best_exists :
    ∀ (bs : List Branch) (acc : TimeoutAcc), acc.found = false →
      (∃ b ∈ bs, b.ub ≤ acc.bestUb) →
      (bs.foldl timeoutCollectStep acc).best.isSome := by
  intro bs
  induction bs with
  | nil => intro acc _ h; rcases h with ⟨b, hb, _⟩; cases hb
  | cons c rest ih =>
      intro acc hf h
      rw [List.foldl_cons]
      rcases le_or_lt c.ub acc.bestUb with hle | hgt
      · rw [timeoutCollectStep_accepts acc c hf hle]
        exact timeoutCollect_best_isSome_preserved rest _ rfl
      · rw [timeoutCollectStep_rejects acc c hf (not_le_of_lt hgt)]
        rcases h with ⟨b, hb, hble⟩
        rcases List.mem_cons.mp hb with rfl | hb
        · omega
        · exact ih acc hf ⟨b, hb, hble⟩

/-!  ## Helper lemmas: the priority queue -/

lemma topAux_mem : ∀ (l : List Branch) (b : Branch), topAux b l ∈ b :: l := by
  intro l
  induction l with
  | nil => intro b; simp [topAux]
  | cons c rest ih =>
      intro b
      simp only [topAux]
      rcases List.mem_cons.mp (ih (if b.depth < c.depth then c else b)) with h | h
      · rw [h]
        split
        · exact List.mem_cons_of_mem _ (List.mem_cons_self c rest)
        · exact List.mem_cons_self b (c :: rest)
      · exact List.mem_cons_of_mem _ (List.mem_cons_of_mem _ h)

lemma topAux_ge : ∀ (l : List Branch) (b c : Branch),
    c ∈ b :: l → c.depth ≤ (topAux b l).depth := by
  intro l
  induction l with
  | nil =>
      intro b c h
      rcases List.mem_cons.mp h with rfl | h
      · exact le_refl _
      · cases h
  | cons d rest ih =>
      intro b c h
      simp only [topAux]
      have hb' : b.depth ≤ (if b.depth < d.depth then d else b).depth := by
        split <;> omega
      have hd' : d.depth ≤ (if b.depth < d.depth then d else b).depth := by
        split <;> omega
      have htop : (if b.depth < d.depth then d else b).depth ≤
          (topAux (if b.depth < d.depth then d else b) rest).depth :=
        ih _ _ (List.mem_cons_self _ _)
      rcases List.mem_cons.mp h with rfl | h
      · exact le_trans hb' htop
      · rcases List.mem_cons.mp h with rfl | h
        · exact le_trans hd' htop
        · exact ih _ c (List.mem_cons_of_mem _ h)

lemma removeOne_length (t : Branch) :
    ∀ (l : List Branch), t ∈ l → (removeOne t l).length + 1 = l.length := by
  intro l
  induction l with
  | nil => intro h; cases h
  | cons b rest ih =>
      intro h
      unfold removeOne
      split
      · simp
      · next hne =>
          have ht : t ∈ rest := by
            rcases List.mem_cons.mp h with rfl | h
            · exact absurd rfl hne
            · exact h
          simp [ih ht]

/-!  ## Helper lemmas: minElement -/

lemma foldl_min_le_init : ∀ (xs : List Nat) (a : Nat), xs.foldl Nat.min a ≤ a := by
  intro xs
  induction xs with
  | nil => intro a; exact le_refl _
  | cons c rest ih =>
      intro a
      exact le_trans (ih (Nat.min a c)) (Nat.min_le_left _ _)

lemma foldl_min_le_mem : ∀ (xs : List Nat) (a b : Nat), b ∈ xs → xs.foldl Nat.min a ≤ b := by
  intro xs
  induction xs with
  | nil => intro a b h; cases h
  | cons c rest ih =>
      intro a b h
      rcases List.mem_cons.mp h with rfl | h
      · exact le_trans (foldl_min_le_init rest _) (Nat.min_le_right _ _)
      · exact ih _ b h

lemma minElement_le_mem {l : List Nat} {a : Nat} (h : a ∈ l) : minElement l ≤ a := by
  cases l with
  | nil => cases h
  | cons x xs =>
      rcases List.mem_cons.mp h with rfl | h
      · exact foldl_min_le_init xs _
      · exact foldl_min_le_mem xs x a h

/-- The branches collected on timeout, indexed by worker rank: membership in
the received list is exactly being the branch of some rank `1..p-1`. -/
lemma mem_workerRecvList {p : Nat} {recvd : Nat → Branch} {b : Branch} :
    b ∈ (List.range (p - 1)).map (fun i => recvd (i + 1)) ↔
    ∃ i, 1 ≤ i ∧ i < p ∧ b = recvd i := by
  simp only [List.mem_map, List.mem_range]
  constructor
  · rintro ⟨j, hj, rfl⟩
    exact ⟨j + 1, by omega, by omega, rfl⟩
  · rintro ⟨i, h1, h2, rfl⟩
    exact ⟨i - 1, by omega, by rw [Nat.sub_add_cancel h1]⟩

/-- Functional description of the coordinator's timeout collection: when at
least one worker's branch has ub not above the entry best_ub, the kept
incumbent is a received branch of minimal ub among the qualifying ones, and
the final best_ub equals its ub. -/
lemma coordinatorTimeoutPhase_spec (p ub0 : Nat) (recvd : Nat → Branch)
    (hex : ∃ i, 1 ≤ i ∧ i < p ∧ (recvd i).ub ≤ ub0) :
    ∃ bb, (coordinatorTimeoutPhase p ub0 recvd).best = some bb ∧
      (coordinatorTimeoutPhase p ub0 recvd).bestUb = bb.ub ∧
      bb.ub ≤ ub0 ∧
      (∃ i, 1 ≤ i ∧ i < p ∧ bb = recvd i) ∧
      (∀ i, 1 ≤ i → i < p → (recvd i).ub ≤ ub0 → bb.ub ≤ (recvd i).ub) := by
  obtain ⟨i, h1, h2, h3⟩ := hex
  have hmemi : recvd i ∈ (List.range (p - 1)).map (fun j => recvd (j + 1)) :=
    mem_workerRecvList.mpr ⟨i, h1, h2, rfl⟩
  have hR : coordinatorTimeoutPhase p ub0 recvd =
      ((List.range (p - 1)).map (fun j => recvd (j + 1))).foldl timeoutCollectStep
        { found := false, best := none, bestUb := ub0 } := rfl
  have hsome : (coordinatorTimeoutPhase p ub0 recvd).best.isSome := by
    rw [hR]
    exact timeoutCollect_best_exists _ _ rfl ⟨recvd i, hmemi, h3⟩
  obtain ⟨bb, hbb⟩ := Option.isSome_iff_exists.mp hsome
  have hubeq : bb.ub = (coordinatorTimeoutPhase p ub0 recvd).bestUb := by
    rw [hR] at hbb ⊢
    exact timeoutCollect_best_ub_eq _ _ (by intro b' hcontra; cases hcontra) bb hbb
  have hmono : (coordinatorTimeoutPhase p ub0 recvd).bestUb ≤ ub0 := by
    rw [hR]
    exact timeoutCollect_bestUb_mono _ _
  have hmem : bb ∈ (List.range (p - 1)).map (fun j => recvd (j + 1)) := by
    rw [hR] at hbb
    rcases timeoutCollect_best_mem _ _ bb hbb with hm | hm
    · exact hm
    · cases hm
  refine ⟨bb, hbb, hubeq.symm, by omega, mem_workerRecvList.mp hmem, ?_⟩
  intro j hj1 hj2 hjle
  have hmemj : recvd j ∈ (List.range (p - 1)).map (fun k => recvd (k + 1)) :=
    mem_workerRecvList.mpr ⟨j, hj1, hj2, rfl⟩
  have := timeoutCollect_min_aux ((List.range (p - 1)).map (fun k => recvd (k + 1)))
    { found := false, best := none, bestUb := ub0 } rfl (recvd j) hmemj hjle
  rw [← hR] at this
  omega

/-- Evaluation of one rank-0 coordinator pass in which the wall-clock
timeout has been reached and a TAG_SOLUTION_FOUND message (declared ub `d`,
branch `br`) is present: the solution is installed first, then the timeout
collection runs and reinstalls the witness from the collected incumbent. -/
lemma coordinatorIteration_timeout_sol (p : Nat) (st : CoordState) (d : Nat) (br : Branch)
    (idleMsgs : List (Nat × Int)) (recvd : Nat → Branch) :
    coordinatorIteration p st true (some (d, br)) idleMsgs recvd =
      ({ bestUb := (coordinatorTimeoutPhase p br.ub recvd).bestUb,
         witness := some (branchOrDefault (coordinatorTimeoutPhase p br.ub recvd).best),
         idleTable := idleMsgs.foldl (fun t m => updateIdleTable t m.1 m.2) st.idleTable,
         solutionFound := true, timeoutSignal := true }, true) := by
  simp [coordinatorIteration]

/-!  ## The claims -/

/-- Claim C5 (confirmed): for every Branch within the machine-integer ranges
of its C++ fields, deserializing the buffer `Branch::serialize` produces
returns a Branch equal to the original in all four fields, and the buffer
lays out lb as 4 bytes, ub as 2 bytes, depth as 4 bytes, then the history
bytes. -/
theorem branch_serialize_roundtrip (b : Branch)
    (hlb1 : -2147483648 ≤ b.lb) (hlb2 : b.lb < 2147483648)
    (hub : b.ub < 65536)
    (hd1 : -2147483648 ≤ b.depth) (hd2 : b.depth < 2147483648) :
    Branch.deserialize (Branch.serialize b) = b ∧
    Branch.serialize b =
      int32ToBytes b.lb ++ bytesLE b.ub 2 ++ int32ToBytes b.depth ++ b.history ∧
    (int32ToBytes b.lb).length = 4 ∧
    (bytesLE b.ub 2).length = 2 ∧
    (int32ToBytes b.depth).length = 4 := by
  have hA : (int32ToBytes b.lb).length = 4 := int32ToBytes_length _
  have hB : (bytesLE b.ub 2).length = 2 := bytesLE_length 2 _
  have hC : (int32ToBytes b.depth).length = 4 := int32ToBytes_length _
  refine ⟨?_, rfl, hA, hB, hC⟩
  have e1 : Branch.serialize b =
      int32ToBytes b.lb ++ (bytesLE b.ub 2 ++ (int32ToBytes b.depth ++ b.history)) := by
    simp [Branch.serialize]
  have e2 : Branch.serialize b =
      (int32ToBytes b.lb ++ bytesLE b.ub 2) ++ (int32ToBytes b.depth ++ b.history) := by
    simp [Branch.serialize]
  have e3 : Branch.serialize b =
      ((int32ToBytes b.lb ++ bytesLE b.ub 2) ++ int32ToBytes b.depth) ++ b.history := by
    simp [Branch.serialize]
  have take4 : (Branch.serialize b).take 4 = int32ToBytes b.lb := by
    rw [e1]; exact take_append_of_len hA
  have drop4 : (Branch.serialize b).drop 4 =
      bytesLE b.ub 2 ++ (int32ToBytes b.depth ++ b.history) := by
    rw [e1]; exact drop_append_of_len hA
  have ubbytes : ((Branch.serialize b).drop 4).take 2 = bytesLE b.ub 2 := by
    rw [drop4]; exact take_append_of_len hB
  have drop6 : (Branch.serialize b).drop 6 = int32ToBytes b.depth ++ b.history := by
    rw [e2]
    exact drop_append_of_len (by simp [hA, hB])
  have depthbytes : ((Branch.serialize b).drop 6).take 4 = int32ToBytes b.depth := by
    rw [drop6]; exact take_append_of_len hC
  have drop10 : (Branch.serialize b).drop 10 = b.history := by
    rw [e3]
    exact drop_append_of_len (by simp [hA, hB, hC])
  have hubpow : b.ub < 256 ^ 2 := by
    rw [show (256 : Nat) ^ 2 = 65536 from by norm_num]
    exact hub
  unfold Branch.deserialize
  rw [take4, ubbytes, depthbytes, drop10, int32_roundtrip b.lb hlb1 hlb2,
      int32_roundtrip b.depth hd1 hd2, wordOfBytes_bytesLE 2 b.ub hubpow]

/-- Witness for C5 at a concrete Branch with negative lb. -/
theorem branch_serialize_roundtrip_witness :
    Branch.deserialize
        (Branch.serialize { history := [7, 255, 0], lb := -3, ub := 5, depth := 123 }) =
      { history := [7, 255, 0], lb := -3, ub := 5, depth := 123 } :=
  (branch_serialize_roundtrip { history := [7, 255, 0], lb := -3, ub := 5, depth := 123 }
    (by decide) (by decide) (by decide) (by decide) (by decide)).1

/-- Claim C10 (confirmed): move-constructing or move-assigning a Branch is
observationally a copy — the destination receives all four fields of the
source and the source is left unchanged (its history is copied because the
member initializers name lvalues). -/
theorem branch_move_is_copy (b dst : Branch) :
    Branch.moveConstruct b = Branch.copyConstruct b ∧
    (Branch.moveConstruct b).1 = b ∧
    (Branch.moveConstruct b).2 = b ∧
    Branch.moveAssign dst b = Branch.copyAssign dst b ∧
    (Branch.moveAssign dst b).1 = b ∧
    (Branch.moveAssign dst b).2 = b := by
  refine ⟨rfl, rfl, rfl, rfl, ?_, ?_⟩
  · unfold Branch.moveAssign
    split
    · next h => exact h
    · rfl
  · unfold Branch.moveAssign
    split <;> rfl

/-- Claim C9 (code bug): at P=1 the victim-selection loop of `request_work`
can never leave its retry loop — every draw satisfies `rand() % 1 = 0 =
my_rank`, so no list of random draws, however long, produces a victim; the
C++ loop (which has no termination-flag check) spins forever instead of
returning false. -/
theorem request_work_victim_selection_diverges_p1 :
    ∀ draws : List Nat, selectVictim 0 1 draws = none := by
  intro draws
  induction draws with
  | nil => rfl
  | cons r rest ih => simp [selectVictim, Nat.mod_one, ih]

/-- Claim C7 (confirmed): on a work request the employer donates exactly
when `queue.size() > 1`; it then pops the top (a deepest branch) and sends
`available=1` on TAG_WORK_RESPONSE followed by that branch on
TAG_WORK_STEALING; otherwise it sends `available=0` and leaves the queue
unchanged. -/
theorem employer_donates_iff_queue_larger_one (q : BQueue) (r : Nat) :
    (1 < q.size →
      ∃ t, q.topOpt = some t ∧ t ∈ q.elems ∧
        thread_2_employer_step q r =
          (q.pop, [Msg.workResponse r 1, Msg.workStealing r t]) ∧
        (∀ c ∈ q.elems, c.depth ≤ t.depth) ∧
        (q.pop).size + 1 = q.size) ∧
    (¬ 1 < q.size → thread_2_employer_step q r = (q, [Msg.workResponse r 0])) := by
  obtain ⟨l⟩ := q
  cases l with
  | nil =>
      refine ⟨?_, fun _ => rfl⟩
      intro h
      simp [BQueue.size] at h
  | cons b l2 =>
      cases l2 with
      | nil =>
          refine ⟨?_, fun _ => rfl⟩
          intro h
          simp [BQueue.size] at h
      | cons c rest =>
          constructor
          · intro _
            refine ⟨topAux b (c :: rest), rfl, topAux_mem (c :: rest) b, rfl, ?_, ?_⟩
            · intro x hx
              exact topAux_ge (c :: rest) b x hx
            · have hm : topAux b (c :: rest) ∈ b :: c :: rest := topAux_mem (c :: rest) b
              simpa [BQueue.pop, BQueue.size] using removeOne_length _ _ hm
          · intro h
            exfalso
            simp [BQueue.size] at h

/-- Witness for C7: a two-element queue donates its deeper branch; a
one-element queue refuses. -/
theorem employer_donates_iff_queue_larger_one_witness :
    (∃ t, BQueue.topOpt ⟨[{ history := [], lb := 1, ub := 3, depth := 2 },
                          { history := [], lb := 1, ub := 3, depth := 5 }]⟩ = some t ∧
      t ∈ [({ history := [], lb := 1, ub := 3, depth := 2 } : Branch),
           { history := [], lb := 1, ub := 3, depth := 5 }] ∧
      thread_2_employer_step ⟨[{ history := [], lb := 1, ub := 3, depth := 2 },
                               { history := [], lb := 1, ub := 3, depth := 5 }]⟩ 1 =
        (BQueue.pop ⟨[{ history := [], lb := 1, ub := 3, depth := 2 },
                      { history := [], lb := 1, ub := 3, depth := 5 }]⟩,
         [Msg.workResponse 1 1, Msg.workStealing 1 t]) ∧
      (∀ c ∈ [({ history := [], lb := 1, ub := 3, depth := 2 } : Branch),
              { history := [], lb := 1, ub := 3, depth := 5 }], c.depth ≤ t.depth) ∧
      (BQueue.pop ⟨[{ history := [], lb := 1, ub := 3, depth := 2 },
                    { history := [], lb := 1, ub := 3, depth := 5 }]⟩).size + 1 = 2) ∧
    thread_2_employer_step ⟨[{ history := [], lb := 1, ub := 3, depth := 2 }]⟩ 1 =
      (⟨[{ history := [], lb := 1, ub := 3, depth := 2 }]⟩, [Msg.workResponse 1 0]) :=
  ⟨(employer_donates_iff_queue_larger_one
      ⟨[{ history := [], lb := 1, ub := 3, depth := 2 },
        { history := [], lb := 1, ub := 3, depth := 5 }]⟩ 1).1 (by decide),
   (employer_donates_iff_queue_larger_one
      ⟨[{ history := [], lb := 1, ub := 3, depth := 2 }]⟩ 1).2 (by decide)⟩

/-- Claim C1 (corrected) — counterexample: the coordinator's store on
receiving a declared solution is unconditional, so with current BestUB 3
and a declared ub of 5 the site writes 5, which is NOT less than or equal
to the value it replaces. -/
theorem bestub_monotone_counterexample :
    thread_0_solution_install 3 5 = 5 ∧ ¬ thread_0_solution_install 3 5 ≤ 3 := by
  decide

/-- Claim C1 (amended): the guarded stores of T3 (single-candidate
improvement and the two-children update), the timeout collection's stores,
and T1's all-gather install (whose gathered vector contains the value this
process contributed) are non-increasing; T0's solution install writes the
declared ub unconditionally and is non-increasing only when that ub does
not exceed the value it replaces. -/
theorem bestub_store_sites_amended (bestUb cand u1 u2 d : Nat)
    (g : List Nat) (bs : List Branch) :
    t3_improve_store bestUb cand ≤ bestUb ∧
    t3_two_children_store bestUb u1 u2 ≤ bestUb ∧
    (bestUb ∈ g → thread_1_gather_install g ≤ bestUb) ∧
    (timeoutCollect bestUb bs).bestUb ≤ bestUb ∧
    (d ≤ bestUb → thread_0_solution_install bestUb d ≤ bestUb) := by
  refine ⟨?_, ?_, ?_, ?_, ?_⟩
  · unfold t3_improve_store
    split <;> omega
  · unfold t3_two_children_store
    split
    · omega
    · split <;> omega
  · intro hmem
    exact minElement_le_mem hmem
  · exact timeoutCollect_bestUb_mono bs _
  · intro hle
    simpa [thread_0_solution_install] using hle

/-- Witness for the amended C1, discharging the two conditional conjuncts
at concrete inputs. -/
theorem bestub_store_sites_amended_witness :
    thread_1_gather_install [10, 3] ≤ 10 ∧ thread_0_solution_install 10 4 ≤ 10 :=
  ⟨(bestub_store_sites_amended 10 5 6 7 4 [10, 3] []).2.2.1 (by decide),
   (bestub_store_sites_amended 10 5 6 7 4 [10, 3] []).2.2.2.2 (by decide)⟩

/-- Claim C2 (corrected) — counterexample: a coordinator pass that sees both
a solution message (declared ub 4, branch of ub 4) and the timeout, with one
worker whose timeout branch has ub 3: the iteration sets both flags, but
the coloring finally installed is the TAG_TIMEOUT_SOLUTION branch, not the
received solution branch. -/
theorem coordinator_witness_precedence_counterexample :
    (coordinatorIteration 2 ⟨10, none, [0, 0], false, false⟩ true
        (some (4, { history := [1], lb := 1, ub := 4, depth := 2 })) []
        (fun _ => { history := [2], lb := 1, ub := 3, depth := 5 })).1.witness =
      some { history := [2], lb := 1, ub := 3, depth := 5 } ∧
    (coordinatorIteration 2 ⟨10, none, [0, 0], false, false⟩ true
        (some (4, { history := [1], lb := 1, ub := 4, depth := 2 })) []
        (fun _ => { history := [2], lb := 1, ub := 3, depth := 5 })).1.witness ≠
      some { history := [1], lb := 1, ub := 4, depth := 2 } ∧
    (coordinatorIteration 2 ⟨10, none, [0, 0], false, false⟩ true
        (some (4, { history := [1], lb := 1, ub := 4, depth := 2 })) []
        (fun _ => { history := [2], lb := 1, ub := 3, depth := 5 })).1.solutionFound = true ∧
    (coordinatorIteration 2 ⟨10, none, [0, 0], false, false⟩ true
        (some (4, { history := [1], lb := 1, ub := 4, depth := 2 })) []
        (fun _ => { history := [2], lb := 1, ub := 3, depth := 5 })).1.timeoutSignal = true := by
  decide

/-- Claim C2 (amended): when a solution message and the timeout are seen in
the same coordinator iteration, the solution's coloring is installed first
(step 2), but the timeout collection of step 6 still runs and — whenever
some worker's collected branch has ub not exceeding the solution's ub —
reinstalls the witness from that collection, so the final coloring is the
minimal-ub collected branch, not the solution branch. -/
theorem coordinator_witness_amended (p : Nat) (st : CoordState) (d : Nat) (br : Branch)
    (idleMsgs : List (Nat × Int)) (recvd : Nat → Branch)
    (hex : ∃ i, 1 ≤ i ∧ i < p ∧ (recvd i).ub ≤ br.ub) :
    (coordinatorIteration p st true (some (d, br)) idleMsgs recvd).1.solutionFound = true ∧
    (coordinatorIteration p st true (some (d, br)) idleMsgs recvd).1.timeoutSignal = true ∧
    (coordinatorIteration p st true (some (d, br)) idleMsgs recvd).2 = true ∧
    ∃ bb, (coordinatorIteration p st true (some (d, br)) idleMsgs recvd).1.witness = some bb ∧
      bb.ub ≤ br.ub ∧
      (∃ i, 1 ≤ i ∧ i < p ∧ bb = recvd i) ∧
      (∀ i, 1 ≤ i → i < p → (recvd i).ub ≤ br.ub → bb.ub ≤ (recvd i).ub) := by
  obtain ⟨bb, hbest, _, hle, hmem, hmin⟩ := coordinatorTimeoutPhase_spec p br.ub recvd hex
  rw [coordinatorIteration_timeout_sol]
  refine ⟨rfl, rfl, rfl, bb, ?_, hle, hmem, hmin⟩
  rw [hbest]
  rfl

/-- Witness for the amended C2 at the concrete two-process instance. -/
theorem coordinator_witness_amended_witness :
    (coordinatorIteration 2 ⟨10, none, [0, 0], false, false⟩ true
        (some (4, { history := [1], lb := 1, ub := 4, depth := 2 })) []
        (fun _ => { history := [2], lb := 1, ub := 3, depth := 5 })).1.solutionFound = true ∧
    ∃ bb, (coordinatorIteration 2 ⟨10, none, [0, 0], false, false⟩ true
        (some (4, { history := [1], lb := 1, ub := 4, depth := 2 })) []
        (fun _ => { history := [2], lb := 1, ub := 3, depth := 5 })).1.witness = some bb ∧
      bb.ub ≤ ({ history := [1], lb := 1, ub := 4, depth := 2 } : Branch).ub ∧
      (∃ i, 1 ≤ i ∧ i < 2 ∧
        bb = (fun _ => ({ history := [2], lb := 1, ub := 3, depth := 5 } : Branch)) i) ∧
      (∀ i, 1 ≤ i → i < 2 →
        ((fun _ => ({ history := [2], lb := 1, ub := 3, depth := 5 } : Branch)) i).ub ≤
          ({ history := [1], lb := 1, ub := 4, depth := 2 } : Branch).ub →
        bb.ub ≤ ((fun _ => ({ history := [2], lb := 1, ub := 3, depth := 5 } : Branch)) i).ub) :=
  ⟨(coordinator_witness_amended 2 ⟨10, none, [0, 0], false, false⟩ 4
      { history := [1], lb := 1, ub := 4, depth := 2 } []
      (fun _ => { history := [2], lb := 1, ub := 3, depth := 5 })
      ⟨1, by decide, by decide, by decide⟩).1,
   (coordinator_witness_amended 2 ⟨10, none, [0, 0], false, false⟩ 4
      { history := [1], lb := 1, ub := 4, depth := 2 } []
      (fun _ => { history := [2], lb := 1, ub := 3, depth := 5 })
      ⟨1, by decide, by decide, by decide⟩).2.2.2⟩

/-- Claim C3 (confirmed): on timeout the coordinator collects exactly one
Branch per worker rank 1..P-1 over TAG_TIMEOUT_SOLUTION and, when any
received branch has ub within the global BestUB, the incumbent whose
coloring is reconstructed is a received branch of minimal ub among those
not exceeding BestUB, and the final BestUB equals its ub. -/
theorem timeout_collection_selects_min (p ub0 : Nat) (recvd : Nat → Branch)
    (hex : ∃ i, 1 ≤ i ∧ i < p ∧ (recvd i).ub ≤ ub0) :
    ((List.range (p - 1)).map (fun i => recvd (i + 1))).length = p - 1 ∧
    ∃ bb, (coordinatorTimeoutPhase p ub0 recvd).best = some bb ∧
      (coordinatorTimeoutPhase p ub0 recvd).bestUb = bb.ub ∧
      bb.ub ≤ ub0 ∧
      (∃ i, 1 ≤ i ∧ i < p ∧ bb = recvd i) ∧
      (∀ i, 1 ≤ i → i < p → (recvd i).ub ≤ ub0 → bb.ub ≤ (recvd i).ub) := by
  refine ⟨by simp, coordinatorTimeoutPhase_spec p ub0 recvd hex⟩

/-- Witness for C3: three processes, worker branches of ub 5 and 6 under a
BestUB of 10. -/
theorem timeout_collection_selects_min_witness :
    ∃ bb, (coordinatorTimeoutPhase 3 10
        (fun i => { history := [], lb := 0, ub := 4 + i, depth := 0 })).best = some bb ∧
      (coordinatorTimeoutPhase 3 10
        (fun i => { history := [], lb := 0, ub := 4 + i, depth := 0 })).bestUb = bb.ub ∧
      bb.ub ≤ 10 ∧
      (∃ i, 1 ≤ i ∧ i < 3 ∧
        bb = (fun i => ({ history := [], lb := 0, ub := 4 + i, depth := 0 } : Branch)) i) ∧
      (∀ i, 1 ≤ i → i < 3 →
        ((fun i => ({ history := [], lb := 0, ub := 4 + i, depth := 0 } : Branch)) i).ub ≤ 10 →
        bb.ub ≤
          ((fun i => ({ history := [], lb := 0, ub := 4 + i, depth := 0 } : Branch)) i).ub) :=
  (timeout_collection_selects_min 3 10
    (fun i => { history := [], lb := 0, ub := 4 + i, depth := 0 })
    ⟨1, by decide, by decide, by decide⟩).2

/-- Claim C4 (corrected) — counterexample: in the BALANCED variant a popped
branch with ub equal to expected_chi leads to `continue`, not `break`: the
loop action is continueLoop, so the worker does NOT exit the search loop. -/
theorem balanced_short_circuit_counterexample :
    (solveShortCircuitBalanced 10 4 4 { history := [], lb := 1, ub := 4, depth := 3 }).2.2 =
      LoopAction.continueLoop ∧
    LoopAction.continueLoop ≠ LoopAction.exitLoop := by
  decide

/-- Claim C4 (amended): when the popped branch's ub equals expected_chi,
both variants store it into BestUB and send the ub followed by the
serialized branch to rank 0 under TAG_SOLUTION_FOUND; the STANDARD variant
then exits the search loop, while the BALANCED variant continues with the
next branch (it leaves the loop only once TerminateFlag is set). -/
theorem solution_short_circuit_amended (bestUb u e : Nat) (cur : Branch) (h : u = e) :
    solveShortCircuitStandard bestUb u e cur =
      (u, [Msg.solutionUb 0 u, Msg.solutionBranch 0 cur], LoopAction.exitLoop) ∧
    solveShortCircuitBalanced bestUb u e cur =
      (u, [Msg.solutionUb 0 u, Msg.solutionBranch 0 cur], LoopAction.continueLoop) := by
  subst h
  constructor <;> simp [solveShortCircuitStandard, solveShortCircuitBalanced]

/-- Witness for the amended C4 at ub = expected_chi = 4. -/
theorem solution_short_circuit_amended_witness :
    solveShortCircuitStandard 9 4 4 { history := [], lb := 2, ub := 4, depth := 6 } =
      (4, [Msg.solutionUb 0 4,
           Msg.solutionBranch 0 { history := [], lb := 2, ub := 4, depth := 6 }],
       LoopAction.exitLoop) ∧
    solveShortCircuitBalanced 9 4 4 { history := [], lb := 2, ub := 4, depth := 6 } =
      (4, [Msg.solutionUb 0 4,
           Msg.solutionBranch 0 { history := [], lb := 2, ub := 4, depth := 6 }],
       LoopAction.continueLoop) :=
  solution_short_circuit_amended 9 4 4 { history := [], lb := 2, ub := 4, depth := 6 } rfl

/-- Claim C6 (corrected) — counterexample: with idle table [0, 1] (P = 2,
the only worker rank 1 reports idle but entry 0 is still 0), every worker
rank 1..P-1 has idle_status = 1, yet the coordinator's all_of check —
which inspects entry 0 as well — does NOT declare all-idle. -/
theorem all_idle_check_counterexample :
    checkAllIdle [0, 1] = false ∧ workersAllIdle [0, 1] = true := by
  decide

/-- Claim C6 (amended): the coordinator declares all-idle exactly when
every entry of idle_status, the rank-0 entry included, equals 1; and
idle_status[0] does not stay 0: the worker thread of every rank — rank 0's
own worker included — sends idle=1 to rank 0 when its queue empties, and
processing that message sets entry 0 to 1. -/
theorem all_idle_check_amended (h : Int) (t : List Int) :
    checkAllIdle (h :: t) = ((h == 1) && workersAllIdle (h :: t)) ∧
    updateIdleTable (h :: t) t3_idleNotify.1 t3_idleNotify.2 = (1 : Int) :: t := by
  constructor
  · rfl
  · rfl

/-- Claim C8 (corrected) — counterexample: popped branch with ub 7 on a
complete graph of 4 vertices under BestUB 6: BestUB becomes 4 =
min(6, 4), but the CurrentBest branch records ub 7 (the popped branch's
ub), not GetNumVertices() = 4. -/
theorem complete_graph_case_counterexample :
    (completeGraphCase 6 4 { history := [], lb := 2, ub := 7, depth := 3 }
        { history := [], lb := 0, ub := 9, depth := 1 }).1 = 4 ∧
    (completeGraphCase 6 4 { history := [], lb := 2, ub := 7, depth := 3 }
        { history := [], lb := 0, ub := 9, depth := 1 }).2.1.ub = 7 ∧
    (completeGraphCase 6 4 { history := [], lb := 2, ub := 7, depth := 3 }
        { history := [], lb := 0, ub := 9, depth := 1 }).2.1.ub ≠ 4 := by
  decide

/-- Claim C8 (amended): in the complete-graph case BestUB becomes
min(BestUB, GetNumVertices()); on improvement CurrentBest becomes a branch
carrying the POPPED branch's lb, ub and depth (so its recorded upper bound
is current.ub, not GetNumVertices()); and the worker continues without
pushing any child. -/
theorem complete_graph_case_amended (bestUb n : Nat) (cur curBest : Branch) :
    (completeGraphCase bestUb n cur curBest).1 = Nat.min bestUb n ∧
    (n < bestUb → completeGraphCase bestUb n cur curBest = (n, cur, [])) ∧
    (¬ n < bestUb → completeGraphCase bestUb n cur curBest = (bestUb, curBest, [])) ∧
    (completeGraphCase bestUb n cur curBest).2.2 = [] := by
  unfold completeGraphCase
  refine ⟨?_, ?_, ?_, ?_⟩
  · split
    · next h => exact (Nat.min_eq_right (Nat.le_of_lt h)).symm
    · next h => exact (Nat.min_eq_left (by omega)).symm
  · intro h
    rw [if_pos h]
  · intro h
    rw [if_neg h]
  · split <;> rfl

/-- Witness for the amended C8, covering both the improving and the
non-improving case. -/
theorem complete_graph_case_amended_witness :
    completeGraphCase 6 4 { history := [], lb := 2, ub := 7, depth := 3 }
        { history := [], lb := 0, ub := 9, depth := 1 } =
      (4, { history := [], lb := 2, ub := 7, depth := 3 }, []) ∧
    completeGraphCase 3 4 { history := [], lb := 2, ub := 7, depth := 3 }
        { history := [], lb := 0, ub := 9, depth := 1 } =
      (3, { history := [], lb := 0, ub := 9, depth := 1 }, []) :=
  ⟨(complete_graph_case_amended 6 4 { history := [], lb := 2, ub := 7, depth := 3 }
      { history := [], lb := 0, ub := 9, depth := 1 }).2.1 (by decide),
   (complete_graph_case_amended 3 4 { history := [], lb := 2, ub := 7, depth := 3 }
      { history := [], lb := 0, ub := 9, depth := 1 }).2.2.1 (by decide)⟩

end GraphColorNumber
